import Mathlib

/-!
# SunPinyin ibus wrapper: `engine_impl.cpp`

A shallow embedding of the key translation, key dispatch, property
activation, preedit decoration and hotkey-profile construction of
`wrapper/ibus/src/engine_impl.cpp`, with the properties proved about them.

Conventions.
* `guint`/`unsigned` values are natural numbers; no arithmetic is performed
  on them in the embedded functions, so no wrap-around can occur.
* `int` offsets of the preedit decoration are integers.  Every offset the
  code computes lies between `0` and `charTypeSize()`, so no `int` overflow
  can occur either.
* Collaborators declared outside this file (the engine session `CIMIView`,
  the predicate `isModeSwitchKey`, `SunPinyinProperty`, the bit masks of
  `IPreeditString`, the modifier-key constants) are parameters; the calls made
  on the session and on `SetupLauncher` are recorded in explicit call logs.
* The container `CHotkeyProfile` and the four page-key codes are modelled from
  the specification, as their doc comments say.
-/

namespace SunPinyin

/-! ## Key events -/

/-- Engine key event `CKeyEvent(code, value, modifiers)`. -/
structure CKeyEvent where
  code : Nat
  value : Nat
  modifiers : Nat
  deriving DecidableEq, Repr

/-- The libc classification `isascii`: a 7-bit character code, `0 .. 0177`. -/
def isascii (c : Nat) : Bool :=
  decide (c ≤ 0x7f)

/-- The libc classification `isspace` on the ASCII range: space, `\t`, `\n`,
`\v`, `\f`, `\r`. -/
def isspace (c : Nat) : Bool :=
  c == 0x20 || (decide (0x09 ≤ c) && decide (c ≤ 0x0d))

/-- The libc classification `isprint` on the ASCII range: `0x20 .. 0x7e`. -/
def isprint (c : Nat) : Bool :=
  decide (0x20 ≤ c) && decide (c ≤ 0x7e)

/-- Function `translate_key` (engine_impl.cpp, lines 90-101). -/
def translate_key (key_val key_code modifiers : Nat) : CKeyEvent :=
  if isascii key_val && !isspace key_val then
    -- we only care about key_val here
    CKeyEvent.mk key_code key_val modifiers
  else
    -- what matters is key_code, but ibus sends key_code as key_val
    CKeyEvent.mk key_val 0 modifiers

/-! ## Key dispatch -/

/-- Status-flag identifiers `CIMIWinHandler::STATUS_ID_*`. -/
inductive StatusId where
  | STATUS_ID_CN
  | STATUS_ID_FULLPUNC
  | STATUS_ID_FULLSYMBOL
  deriving DecidableEq, Repr

/-- The engine session `m_pv` as `process_key_event` sees it: the value it
reports for each status flag and its answer to `onKeyEvent` in its current
state. -/
structure CIMIView where
  getStatusAttrValue : StatusId → Bool
  onKeyEvent : CKeyEvent → Bool

/-- Calls made on the engine session. -/
inductive SessionCall where
  | onKeyEvent (key : CKeyEvent)
  | setStatusAttrValue (id : StatusId) (value : Bool)
  deriving DecidableEq, Repr

/-- Method `EngineImpl::process_key_event` (engine_impl.cpp, lines 103-121).
`isModeSwitchKey` is the predicate of the hotkey profile `m_hotkey_profile`.
The result is the returned `gboolean` together with the calls made on the
session that can change it. -/
def process_key_event (m_pv : CIMIView) (isModeSwitchKey : CKeyEvent → Bool)
    (key_val key_code modifiers : Nat) : Bool × List SessionCall :=
  let key := translate_key key_val key_code modifiers
  if !m_pv.getStatusAttrValue StatusId.STATUS_ID_CN then
    -- we are in English input mode
    if !isModeSwitchKey key then
      (false, [])
    else
      (m_pv.onKeyEvent key, [SessionCall.onKeyEvent key])
  else
    (m_pv.onKeyEvent key, [SessionCall.onKeyEvent key])

/-! ## Preedit decoration -/

/-- The preedit interface `IPreeditString` as the decorator reads it: the
number of classified characters, the character type (a bit set) at every
offset, and the two bit masks `ILLEGAL` and `USER_CHOICE` of its character-type
enumeration. -/
structure IPreeditString where
  charTypeSize : Int
  charTypeAt : Int → Nat
  ILLEGAL : Nat
  USER_CHOICE : Nat

/-- Attribute kinds of the host text (`IBusAttrType`). -/
inductive IBusAttrType where
  | IBUS_ATTR_TYPE_UNDERLINE
  | IBUS_ATTR_TYPE_FOREGROUND
  | IBUS_ATTR_TYPE_BACKGROUND
  deriving DecidableEq, Repr

/-- One attribute (span) attached to a host text. -/
structure IBusAttribute where
  type : IBusAttrType
  value : Nat
  start_index : Int
  end_index : Int
  deriving DecidableEq, Repr

/-- The attributes attached to an `IBusText`, in the order they were appended. -/
abbrev IBusText := List IBusAttribute

/-- Host call `ibus_text_append_attribute`: appends one attribute to the text. -/
def ibus_text_append_attribute (text : IBusText) (type : IBusAttrType) (value : Nat)
    (start_index end_index : Int) : IBusText :=
  text ++ [IBusAttribute.mk type value start_index end_index]

/-- The loop `while (i < end && preedit.charTypeAt(i) & type) ++i;` of
`decorate_preedit_char`, started at `i` with a budget of iterations.  The
result is the value of `i` when the loop condition fails, or `none` when the
budget is used up while the condition still holds. -/
def decorate_preedit_char.scan (preedit : IPreeditString) (end_ : Int) (type : Nat) :
    Nat → Int → Option Int
  | 0, i =>
    if decide (i < end_) && (preedit.charTypeAt i &&& type != 0) then none else some i
  | n + 1, i =>
    if decide (i < end_) && (preedit.charTypeAt i &&& type != 0) then
      decorate_preedit_char.scan preedit end_ type n (i + 1)
    else some i

/-- Function `decorate_preedit_char` (engine_impl.cpp, lines 242-256): returns
the text after the call and the returned length.  The inner loop gets a budget
of `end - begin` iterations. -/
def decorate_preedit_char (text : IBusText) (preedit : IPreeditString) (begin end_ : Int)
    (type : Nat) (fg_color : Nat) : Option (IBusText × Int) :=
  match decorate_preedit_char.scan preedit end_ type (end_ - begin).toNat begin with
  | none => none
  | some i =>
    let end_ := i
    let len := end_ - begin
    if len > 0 then
      some (ibus_text_append_attribute text IBusAttrType.IBUS_ATTR_TYPE_FOREGROUND
              fg_color begin end_, len)
    else
      some (text, len)

/-- One iteration of the `for` loop of `decorate_preedit_string`, entered with
`i < size`: the text and the loop index after the iteration. -/
def decorate_preedit_string.body (preedit : IPreeditString) (size : Int) (text : IBusText)
    (i : Int) : Option (IBusText × Int) :=
  match decorate_preedit_char text preedit i size preedit.ILLEGAL 0xE76F00 with
  | none => none
  | some (text1, len) =>
    if len > 0 then
      some (text1, i + len)
    else
      match decorate_preedit_char text1 preedit i size preedit.USER_CHOICE 0x35556B with
      | none => none
      | some (text2, len) =>
        if len > 0 then
          some (text2, i + len)
        else
          some (text2, i + 1)

/-- The `for` loop of `decorate_preedit_string` with a budget of iterations;
`none` when the budget is used up while `i < size` still holds. -/
def decorate_preedit_string.loop (preedit : IPreeditString) (size : Int) :
    Nat → IBusText → Int → Option IBusText
  | 0, text, i => if i < size then none else some text
  | n + 1, text, i =>
    if i < size then
      match decorate_preedit_string.body preedit size text i with
      | none => none
      | some (text1, i1) => decorate_preedit_string.loop preedit size n text1 i1
    else some text

/-- Function `decorate_preedit_string` (engine_impl.cpp, lines 258-273): the
text after the call.  The loop gets a budget of `size` iterations. -/
def decorate_preedit_string (text : IBusText) (preedit : IPreeditString) : Option IBusText :=
  let size := preedit.charTypeSize
  decorate_preedit_string.loop preedit size size.toNat text 0

/-- A preedit whose character types are the entries of a list, for evaluating
the decorator on concrete inputs. -/
def preeditOfList (ILLEGAL USER_CHOICE : Nat) (types : List Nat) : IPreeditString :=
  { charTypeSize := types.length
    charTypeAt := fun i => if i < 0 then 0 else types.getD i.toNat 0
    ILLEGAL := ILLEGAL
    USER_CHOICE := USER_CHOICE }

/-- The test `preedit.charTypeAt(j) & mask` of the decorator: the character
type at offset `j` has a bit of `mask` set. -/
def IPreeditString.hasBit (p : IPreeditString) (mask : Nat) (j : Int) : Bool :=
  p.charTypeAt j &&& mask != 0

/-- Offset `j` lies inside the span `[start_index, end_index)`. -/
def IBusAttribute.covers (s : IBusAttribute) (j : Int) : Prop :=
  s.start_index ≤ j ∧ j < s.end_index

instance (s : IBusAttribute) (j : Int) : Decidable (s.covers j) := by
  unfold IBusAttribute.covers
  exact inferInstance

/-- Foreground colour of the spans emitted for `ILLEGAL` runs. -/
def illegalColor : Nat := 0xE76F00

/-- Foreground colour of the spans emitted for `USER_CHOICE` runs. -/
def userChoiceColor : Nat := 0x35556B

/-- The scan of `decorate_preedit_string` from loop index `i` on, as a
relation between `i` and the spans emitted from there: the scan is over, or it
skips an offset with neither bit, or it emits a maximal `ILLEGAL` run starting
at `i`, or (the character at `i` not being `ILLEGAL`) a maximal `USER_CHOICE`
run starting at `i`. -/
inductive Runs (p : IPreeditString) : Int → List IBusAttribute → Prop where
  | done {i : Int} : p.charTypeSize ≤ i → Runs p i []
  | skip {i : Int} {spans : List IBusAttribute} :
      i < p.charTypeSize → p.hasBit p.ILLEGAL i = false → p.hasBit p.USER_CHOICE i = false →
      Runs p (i + 1) spans → Runs p i spans
  | illegal {i e : Int} {spans : List IBusAttribute} :
      i < e → e ≤ p.charTypeSize →
      (∀ j, i ≤ j → j < e → p.hasBit p.ILLEGAL j = true) →
      (e < p.charTypeSize → p.hasBit p.ILLEGAL e = false) →
      Runs p e spans →
      Runs p i (IBusAttribute.mk IBusAttrType.IBUS_ATTR_TYPE_FOREGROUND illegalColor i e :: spans)
  | user {i e : Int} {spans : List IBusAttribute} :
      i < e → e ≤ p.charTypeSize → p.hasBit p.ILLEGAL i = false →
      (∀ j, i ≤ j → j < e → p.hasBit p.USER_CHOICE j = true) →
      (e < p.charTypeSize → p.hasBit p.USER_CHOICE e = false) →
      Runs p e spans →
      Runs p i (IBusAttribute.mk IBusAttrType.IBUS_ATTR_TYPE_FOREGROUND userChoiceColor i e :: spans)

/-- The spans, in order, tile `[cur, L)`: every span is non-empty, the first
starts at `cur`, each starts where the previous one ends, and the last ends at
`L` (with no span at all, nothing of `[cur, L)` is left to cover). -/
def tiles (L : Int) : Int → List IBusAttribute → Bool
  | cur, [] => decide (L ≤ cur)
  | cur, s :: rest =>
    decide (s.start_index = cur) && decide (s.start_index < s.end_index) &&
      decide (s.end_index ≤ L) && tiles L s.end_index rest

/-! ## Property activation -/

/-- The class `SunPinyinProperty` as `property_activate` uses it, over the
type `P` of property objects: `toggle` tells whether the object accepts the
property name and gives the object after the call; `state` reads its state. -/
structure SunPinyinProperty (P : Type) where
  toggle : P → String → Bool × P
  state : P → Bool

/-- What `property_activate` leaves behind: the three property objects, the
calls made on the engine session and the property names handed to
`SetupLauncher::launch`. -/
structure Activation (P : Type) where
  m_status_prop : P
  m_letter_prop : P
  m_punct_prop : P
  sessionCalls : List SessionCall
  launches : List String

/-- Method `EngineImpl::property_activate` (engine_impl.cpp, lines 165-181). -/
def property_activate {P : Type} (ops : SunPinyinProperty P)
    (m_status_prop m_letter_prop m_punct_prop : P) (property : String) (_state : Nat) :
    Activation P :=
  let r1 := ops.toggle m_status_prop property
  if r1.1 then
    { m_status_prop := r1.2, m_letter_prop := m_letter_prop, m_punct_prop := m_punct_prop
      sessionCalls := [SessionCall.setStatusAttrValue StatusId.STATUS_ID_CN (ops.state r1.2)]
      launches := [] }
  else
    let r2 := ops.toggle m_letter_prop property
    if r2.1 then
      { m_status_prop := r1.2, m_letter_prop := r2.2, m_punct_prop := m_punct_prop
        sessionCalls :=
          [SessionCall.setStatusAttrValue StatusId.STATUS_ID_FULLSYMBOL (ops.state r2.2)]
        launches := [] }
    else
      let r3 := ops.toggle m_punct_prop property
      if r3.1 then
        { m_status_prop := r1.2, m_letter_prop := r2.2, m_punct_prop := r3.2
          sessionCalls :=
            [SessionCall.setStatusAttrValue StatusId.STATUS_ID_FULLPUNC (ops.state r3.2)]
          launches := [] }
      else
        -- try to launch the setup UI
        { m_status_prop := r1.2, m_letter_prop := r2.2, m_punct_prop := r3.2
          sessionCalls := []
          launches := [property] }

/-- Modelled from the spec: the class `SunPinyinProperty` is implemented
outside `engine_impl.cpp`.  A toggle group is a property name with a boolean
state; `toggle(name)` flips the state and answers true when the name is the
group's own, and otherwise changes nothing and answers false. -/
def namedProperty : SunPinyinProperty (String × Bool) :=
  { toggle := fun p name => if name = p.1 then (true, (p.1, !p.2)) else (false, p)
    state := fun p => p.2 }

/-! ## Hotkey profile -/

/-- Modelled from the spec: the header `imi_keys.h` is not part of the
sources; the key bound by the page-key-minus flag to page-up is `-`. -/
def IM_VK_MINUS : Nat := 0x2D

/-- Modelled from the spec: the key bound by the page-key-minus flag to
page-down is `=`. -/
def IM_VK_EQUALS : Nat := 0x3D

/-- Modelled from the spec: the key bound by the page-key-comma flag to
page-up is `,`. -/
def IM_VK_COMMA : Nat := 0x2C

/-- Modelled from the spec: the key bound by the page-key-comma flag to
page-down is `.`. -/
def IM_VK_PERIOD : Nat := 0x2E

/-- The modifier-key constants of `imi_keys.h`: key codes of the Shift and
Control keys and the Shift, Control, Alt and key-release modifier masks. -/
structure KeyConstants where
  IM_VK_SHIFT : Nat
  IM_VK_CONTROL : Nat
  IM_SHIFT_MASK : Nat
  IM_CTRL_MASK : Nat
  IM_ALT_MASK : Nat
  IM_RELEASE_MASK : Nat

/-- A concrete assignment of the modifier-key constants (the X11 keysyms of
the left Shift and Control keys and the X11 modifier bits), for evaluating the
profile construction. -/
def x11KeyConstants : KeyConstants :=
  { IM_VK_SHIFT := 0xffe1
    IM_VK_CONTROL := 0xffe3
    IM_SHIFT_MASK := 1
    IM_CTRL_MASK := 4
    IM_ALT_MASK := 8
    IM_RELEASE_MASK := 0x40000000 }

/-- Modelled from the spec: the class `CHotkeyProfile` is declared outside
`engine_impl.cpp`.  A profile holds the mode-switch keys, the page-up keys and
the page-down keys; bindings are only ever added. -/
structure CHotkeyProfile where
  m_modeSwitchKeys : List CKeyEvent
  m_pageUpKeys : List CKeyEvent
  m_pageDownKeys : List CKeyEvent
  deriving DecidableEq, Repr

/-- The profile with no binding. -/
def CHotkeyProfile.empty : CHotkeyProfile :=
  { m_modeSwitchKeys := [], m_pageUpKeys := [], m_pageDownKeys := [] }

/-- Modelled from the spec: `setModeSwitchKey` registers a mode-switch key. -/
def CHotkeyProfile.setModeSwitchKey (h : CHotkeyProfile) (key : CKeyEvent) : CHotkeyProfile :=
  { h with m_modeSwitchKeys := h.m_modeSwitchKeys ++ [key] }

/-- Modelled from the spec: `addPageUpKey` registers a page-up key. -/
def CHotkeyProfile.addPageUpKey (h : CHotkeyProfile) (key : CKeyEvent) : CHotkeyProfile :=
  { h with m_pageUpKeys := h.m_pageUpKeys ++ [key] }

/-- Modelled from the spec: `addPageDownKey` registers a page-down key. -/
def CHotkeyProfile.addPageDownKey (h : CHotkeyProfile) (key : CKeyEvent) : CHotkeyProfile :=
  { h with m_pageDownKeys := h.m_pageDownKeys ++ [key] }

/-- The four boolean configuration keys read by the profile construction. -/
inductive ConfigKey where
  | CONFIG_KEYBOARD_MODE_SWITCH_SHIFT
  | CONFIG_KEYBOARD_MODE_SWITCH_CONTROL
  | CONFIG_KEYBOARD_PAGE_MINUS
  | CONFIG_KEYBOARD_PAGE_COMMA
  deriving DecidableEq, Repr

/-- The configuration `m_config`: the value stored under each key, if any. -/
structure SunPinyinConfig where
  stored : ConfigKey → Option Bool

/-- Call `m_config->get(key, val)`: the stored value, or `val` when the key
has none. -/
def SunPinyinConfig.get (c : SunPinyinConfig) (key : ConfigKey) (val : Bool) : Bool :=
  (c.stored key).getD val

/-- Method `EngineImpl::update_mode_key_shift` (engine_impl.cpp, lines 345-354). -/
def update_mode_key_shift (K : KeyConstants) (m_config : SunPinyinConfig)
    (m_hotkey_profile : CHotkeyProfile) : CHotkeyProfile :=
  let enabled := m_config.get ConfigKey.CONFIG_KEYBOARD_MODE_SWITCH_SHIFT true
  if enabled then
    m_hotkey_profile.setModeSwitchKey
      (CKeyEvent.mk K.IM_VK_SHIFT 0 (K.IM_SHIFT_MASK ||| K.IM_RELEASE_MASK))
  else
    m_hotkey_profile

/-- Method `EngineImpl::update_mode_key_control` (engine_impl.cpp, lines 356-365). -/
def update_mode_key_control (K : KeyConstants) (m_config : SunPinyinConfig)
    (m_hotkey_profile : CHotkeyProfile) : CHotkeyProfile :=
  let enabled := m_config.get ConfigKey.CONFIG_KEYBOARD_MODE_SWITCH_CONTROL false
  if enabled then
    m_hotkey_profile.setModeSwitchKey
      (CKeyEvent.mk K.IM_VK_SHIFT 0 (K.IM_ALT_MASK ||| K.IM_RELEASE_MASK))
  else
    m_hotkey_profile

/-- Method `EngineImpl::update_page_key_minus` (engine_impl.cpp, lines 367-376);
`CKeyEvent(code)` is the event with value 0 and no modifier. -/
def update_page_key_minus (m_config : SunPinyinConfig) (m_hotkey_profile : CHotkeyProfile) :
    CHotkeyProfile :=
  let enabled := m_config.get ConfigKey.CONFIG_KEYBOARD_PAGE_MINUS false
  if enabled then
    (m_hotkey_profile.addPageUpKey (CKeyEvent.mk IM_VK_MINUS 0 0)).addPageDownKey
      (CKeyEvent.mk IM_VK_EQUALS 0 0)
  else
    m_hotkey_profile

/-- Method `EngineImpl::update_page_key_comma` (engine_impl.cpp, lines 378-387). -/
def update_page_key_comma (m_config : SunPinyinConfig) (m_hotkey_profile : CHotkeyProfile) :
    CHotkeyProfile :=
  let enabled := m_config.get ConfigKey.CONFIG_KEYBOARD_PAGE_COMMA false
  if enabled then
    (m_hotkey_profile.addPageUpKey (CKeyEvent.mk IM_VK_COMMA 0 0)).addPageDownKey
      (CKeyEvent.mk IM_VK_PERIOD 0 0)
  else
    m_hotkey_profile

/-- Method `EngineImpl::update_hotkey_profile` (engine_impl.cpp, lines 81-88). -/
def update_hotkey_profile (K : KeyConstants) (m_config : SunPinyinConfig)
    (m_hotkey_profile : CHotkeyProfile) : CHotkeyProfile :=
  let h1 := update_page_key_minus m_config m_hotkey_profile
  let h2 := update_page_key_comma m_config h1
  let h3 := update_mode_key_shift K m_config h2
  update_mode_key_control K m_config h3

/-- The configuration that stores `true` for mode-switch-on-control and
`false` for the three other flags. -/
def controlOnlyConfig : SunPinyinConfig :=
  { stored := fun key => some (decide (key = ConfigKey.CONFIG_KEYBOARD_MODE_SWITCH_CONTROL)) }

/-! ## Theorems: key translation and dispatch -/

theorem isascii_iff (c : Nat) : isascii c = true ↔ c ≤ 127 := by
  simp [isascii]

theorem isspace_iff (c : Nat) :
    isspace c = true ↔ c = 32 ∨ c = 9 ∨ c = 10 ∨ c = 11 ∨ c = 12 ∨ c = 13 := by
  simp only [isspace, Bool.or_eq_true, Bool.and_eq_true, beq_iff_eq, decide_eq_true_eq]
  omega

/-- The guard of `translate_key`, in arithmetic terms. -/
theorem translate_key_guard (key_val : Nat) :
    (isascii key_val && !isspace key_val) = true ↔
      (key_val ≤ 127 ∧
        ¬ (key_val = 32 ∨ key_val = 9 ∨ key_val = 10 ∨ key_val = 11 ∨ key_val = 12 ∨
            key_val = 13)) := by
  rw [Bool.and_eq_true, Bool.not_eq_true', ← Bool.not_eq_true, isascii_iff, isspace_iff]

theorem translate_key_value_driven (key_val key_code modifiers : Nat)
    (h : (isascii key_val && !isspace key_val) = true) :
    translate_key key_val key_code modifiers = CKeyEvent.mk key_code key_val modifiers := by
  unfold translate_key
  rw [if_pos h]

theorem translate_key_code_driven (key_val key_code modifiers : Nat)
    (h : ¬ (isascii key_val && !isspace key_val) = true) :
    translate_key key_val key_code modifiers = CKeyEvent.mk key_val 0 modifiers := by
  unfold translate_key
  rw [if_neg h]

/-- C1: `translate_key` returns `{code: key_code, value: key_val, modifiers}`
exactly when `key_val` is an ASCII character (0..127) that is not one of
space, `\t`, `\n`, `\v`, `\f`, `\r`; otherwise it returns
`{code: key_val, value: 0, modifiers}`; the modifier mask is always passed
through unchanged. -/
theorem translate_key_contract (key_val key_code modifiers : Nat) :
    (translate_key key_val key_code modifiers = CKeyEvent.mk key_code key_val modifiers ↔
      (key_val ≤ 127 ∧
        ¬ (key_val = 32 ∨ key_val = 9 ∨ key_val = 10 ∨ key_val = 11 ∨ key_val = 12 ∨
            key_val = 13))) ∧
    (¬ (key_val ≤ 127 ∧
        ¬ (key_val = 32 ∨ key_val = 9 ∨ key_val = 10 ∨ key_val = 11 ∨ key_val = 12 ∨
            key_val = 13)) →
      translate_key key_val key_code modifiers = CKeyEvent.mk key_val 0 modifiers) ∧
    (translate_key key_val key_code modifiers).modifiers = modifiers := by
  by_cases h : (isascii key_val && !isspace key_val) = true
  · have h' := (translate_key_guard key_val).mp h
    rw [translate_key_value_driven key_val key_code modifiers h]
    exact ⟨⟨fun _ => h', fun _ => rfl⟩, fun hn => absurd h' hn, rfl⟩
  · have h' := fun hh => h ((translate_key_guard key_val).mpr hh)
    rw [translate_key_code_driven key_val key_code modifiers h]
    refine ⟨⟨?_, fun hh => absurd hh h'⟩, fun _ => rfl, rfl⟩
    intro heq
    injection heq with h1 h2 h3
    exfalso
    apply h'
    omega

/-- C1, evaluated: `'a'` (97) is value-driven, Return (0xff0d) and space are
code-driven. -/
theorem translate_key_contract_witness :
    translate_key 97 30 4 = CKeyEvent.mk 30 97 4 ∧
    translate_key 0xff0d 36 1 = CKeyEvent.mk 0xff0d 0 1 ∧
    translate_key 32 57 0 = CKeyEvent.mk 32 0 0 :=
  ⟨(translate_key_contract 97 30 4).1.mpr (by decide),
   (translate_key_contract 0xff0d 36 1).2.1 (by decide),
   (translate_key_contract 32 57 0).2.1 (by decide)⟩

/-- C2 as stated fails: DEL (0x7f) is an ASCII control character, so it is
not printable, yet `translate_key` neither zeroes the value nor puts the raw
`key_val` into the code. -/
theorem translate_key_control_char_counterexample :
    ¬ (¬ (isprint 0x7f = true ∧ isspace 0x7f = false) →
        (translate_key 0x7f 9 0).value = 0 ∧ (translate_key 0x7f 9 0).code = 0x7f) := by
  intro h
  have h2 := h (by decide)
  exact absurd h2.1 (by decide)

/-- C2, amended: for every input whose `key_val` is a non-whitespace ASCII
character (0..127, control characters such as 0x00 and 0x7f included, hence in
particular every printable non-whitespace ASCII character) the event has
`value = key_val` and `code = key_code`; for every other input (whitespace and
all non-ASCII key values) the event has `value = 0` and `code = key_val`. -/
theorem translate_key_ascii_rule (key_val key_code modifiers : Nat) :
    ((key_val ≤ 127 ∧
        ¬ (key_val = 32 ∨ key_val = 9 ∨ key_val = 10 ∨ key_val = 11 ∨ key_val = 12 ∨
            key_val = 13)) →
      (translate_key key_val key_code modifiers).value = key_val ∧
      (translate_key key_val key_code modifiers).code = key_code) ∧
    ((isprint key_val = true ∧ isspace key_val = false) →
      (translate_key key_val key_code modifiers).value = key_val) ∧
    (¬ (key_val ≤ 127 ∧
        ¬ (key_val = 32 ∨ key_val = 9 ∨ key_val = 10 ∨ key_val = 11 ∨ key_val = 12 ∨
            key_val = 13)) →
      (translate_key key_val key_code modifiers).value = 0 ∧
      (translate_key key_val key_code modifiers).code = key_val) := by
  refine ⟨?_, ?_, ?_⟩
  · intro h
    rw [translate_key_value_driven key_val key_code modifiers
      ((translate_key_guard key_val).mpr h)]
    exact ⟨rfl, rfl⟩
  · rintro ⟨hp, hs⟩
    have hle : key_val ≤ 127 := by
      simp only [isprint, Bool.and_eq_true, decide_eq_true_eq] at hp
      omega
    have hg : (isascii key_val && !isspace key_val) = true := by
      rw [Bool.and_eq_true, (isascii_iff key_val), hs]
      exact ⟨hle, rfl⟩
    rw [translate_key_value_driven key_val key_code modifiers hg]
  · intro h
    rw [translate_key_code_driven key_val key_code modifiers
      (fun hh => h ((translate_key_guard key_val).mp hh))]
    exact ⟨rfl, rfl⟩

/-- C2 amended, evaluated: DEL and NUL keep their value and the raw code;
BackSpace (0xff08) and tab are code-driven. -/
theorem translate_key_ascii_rule_witness :
    ((translate_key 0x7f 9 0).value = 0x7f ∧ (translate_key 0x7f 9 0).code = 9) ∧
    (translate_key 97 30 0).value = 97 ∧
    ((translate_key 0xff08 22 0).value = 0 ∧ (translate_key 0xff08 22 0).code = 0xff08) :=
  ⟨(translate_key_ascii_rule 0x7f 9 0).1 (by decide),
   (translate_key_ascii_rule 97 30 0).2.1 (by decide),
   (translate_key_ascii_rule 0xff08 22 0).2.2 (by decide)⟩

/-- C3: when the session's CN flag is off and the translated key is not a
mode-switch key, `process_key_event` returns FALSE and makes no `onKeyEvent`
call; in every other case it makes exactly one `onKeyEvent` call, with
`translate_key key_val key_code modifiers`, and returns its answer. -/
theorem process_key_event_dispatch (m_pv : CIMIView) (isModeSwitchKey : CKeyEvent → Bool)
    (key_val key_code modifiers : Nat) :
    ((m_pv.getStatusAttrValue StatusId.STATUS_ID_CN = false ∧
        isModeSwitchKey (translate_key key_val key_code modifiers) = false) →
      process_key_event m_pv isModeSwitchKey key_val key_code modifiers = (false, [])) ∧
    (¬ (m_pv.getStatusAttrValue StatusId.STATUS_ID_CN = false ∧
        isModeSwitchKey (translate_key key_val key_code modifiers) = false) →
      process_key_event m_pv isModeSwitchKey key_val key_code modifiers =
        (m_pv.onKeyEvent (translate_key key_val key_code modifiers),
         [SessionCall.onKeyEvent (translate_key key_val key_code modifiers)])) := by
  constructor
  · rintro ⟨h1, h2⟩
    simp [process_key_event, h1, h2]
  · intro h
    cases h1 : m_pv.getStatusAttrValue StatusId.STATUS_ID_CN
    · cases h2 : isModeSwitchKey (translate_key key_val key_code modifiers)
      · exact absurd ⟨h1, h2⟩ h
      · simp [process_key_event, h1, h2]
    · simp [process_key_event, h1]

/-- C3, evaluated: key `{value: 'a', code: 30, modifiers: 0}` with CN off and
no mode-switch key is not consumed and not forwarded, whatever the engine would
have answered; with CN on it is forwarded once. -/
theorem process_key_event_dispatch_witness :
    process_key_event ⟨fun _ => false, fun _ => true⟩ (fun _ => false) 97 30 0 = (false, []) ∧
    process_key_event ⟨fun _ => true, fun _ => true⟩ (fun _ => false) 97 30 0 =
      (true, [SessionCall.onKeyEvent (CKeyEvent.mk 30 97 0)]) :=
  ⟨(process_key_event_dispatch ⟨fun _ => false, fun _ => true⟩ (fun _ => false) 97 30 0).1
      ⟨rfl, rfl⟩,
   (process_key_event_dispatch ⟨fun _ => true, fun _ => true⟩ (fun _ => false) 97 30 0).2
      (by simp)⟩

/-! ## Theorems: preedit decoration -/

/-- The inner loop of `decorate_preedit_char` stops within its budget, at the
end of the longest run of offsets from `i` whose type meets `type`. -/
theorem scan_spec (p : IPreeditString) (end_ : Int) (type : Nat) :
    ∀ (n : Nat) (i : Int), (end_ - i).toNat ≤ n →
      ∃ e, decorate_preedit_char.scan p end_ type n i = some e ∧ i ≤ e ∧
        (i ≤ end_ → e ≤ end_) ∧
        (∀ j, i ≤ j → j < e → p.hasBit type j = true) ∧
        (e < end_ → p.hasBit type e = false) := by
  intro n
  induction n with
  | zero =>
    intro i h
    have hi : ¬ i < end_ := by omega
    refine ⟨i, ?_, le_refl _, fun h => h, ?_, ?_⟩
    · simp [decorate_preedit_char.scan, hi]
    · intro j h1 h2
      omega
    · intro h
      omega
  | succ n ih =>
    intro i h
    by_cases hc : (decide (i < end_) && (p.charTypeAt i &&& type != 0)) = true
    · have hlt : i < end_ := by
        rw [Bool.and_eq_true, decide_eq_true_eq] at hc
        exact hc.1
      have hb : p.hasBit type i = true := by
        rw [Bool.and_eq_true] at hc
        exact hc.2
      obtain ⟨e, he, h1, h2, h3, h4⟩ := ih (i + 1) (by omega)
      refine ⟨e, ?_, by omega, fun _ => h2 (by omega), ?_, h4⟩
      · rw [decorate_preedit_char.scan, if_pos hc]
        exact he
      · intro j hj1 hj2
        by_cases hji : j = i
        · rw [hji]
          exact hb
        · exact h3 j (by omega) hj2
    · refine ⟨i, ?_, le_refl _, fun h => h, ?_, ?_⟩
      · rw [decorate_preedit_char.scan, if_neg hc]
      · intro j h1 h2
        omega
      · intro hlt
        rw [Bool.and_eq_true, decide_eq_true_eq] at hc
        cases hb : p.hasBit type i
        · rfl
        · exact absurd ⟨hlt, hb⟩ hc

/-- Function `decorate_preedit_char` called with `begin ≤ end` returns: its
length is the length of the longest run from `begin` meeting `type`, and it
appends one span over that run exactly when the run is not empty. -/
theorem decorate_preedit_char_spec (text : IBusText) (p : IPreeditString) (begin end_ : Int)
    (type fg_color : Nat) (hbe : begin ≤ end_) :
    ∃ len, 0 ≤ len ∧ begin + len ≤ end_ ∧
      decorate_preedit_char text p begin end_ type fg_color =
        some (if 0 < len then
                text ++ [IBusAttribute.mk IBusAttrType.IBUS_ATTR_TYPE_FOREGROUND fg_color
                          begin (begin + len)]
              else text, len) ∧
      (∀ j, begin ≤ j → j < begin + len → p.hasBit type j = true) ∧
      (begin + len < end_ → p.hasBit type (begin + len) = false) := by
  obtain ⟨e, he, h1, h2, h3, h4⟩ := scan_spec p end_ type (end_ - begin).toNat begin (le_refl _)
  refine ⟨e - begin, by omega, by have := h2 hbe; omega, ?_, ?_, ?_⟩
  · unfold decorate_preedit_char
    rw [he]
    by_cases hl : e - begin > 0
    · simp only [hl, gt_iff_lt, if_true, ibus_text_append_attribute]
      have : begin + (e - begin) = e := by omega
      rw [this]
    · simp only [hl, gt_iff_lt, if_false]
  · intro j hj1 hj2
    exact h3 j hj1 (by omega)
  · intro hlt
    have : begin + (e - begin) = e := by omega
    rw [this] at hlt ⊢
    exact h4 hlt

/-- One iteration of the loop of `decorate_preedit_string`, entered with
`i < size`, returns, moves the loop index strictly forward without passing
`size`, and emits at most one span; what it does is one step of `Runs`. -/
theorem body_spec (p : IPreeditString) (text : IBusText) (i : Int) (hi : i < p.charTypeSize) :
    ∃ spans i1, decorate_preedit_string.body p p.charTypeSize text i = some (text ++ spans, i1) ∧
      i < i1 ∧ i1 ≤ p.charTypeSize ∧ spans.length ≤ 1 ∧
      (∀ rest, Runs p i1 rest → Runs p i (spans ++ rest)) := by
  obtain ⟨len1, h0, hle, hcall, hbits, hmax⟩ :=
    decorate_preedit_char_spec text p i p.charTypeSize p.ILLEGAL 0xE76F00 (le_of_lt hi)
  by_cases hpos : 0 < len1
  · refine ⟨[IBusAttribute.mk IBusAttrType.IBUS_ATTR_TYPE_FOREGROUND illegalColor i (i + len1)],
      i + len1, ?_, by omega, hle, by simp, ?_⟩
    · unfold decorate_preedit_string.body
      rw [hcall]
      simp only [hpos, gt_iff_lt, if_true]
      rfl
    · intro rest hr
      exact Runs.illegal (by omega) hle hbits hmax hr
  · have hz : len1 = 0 := by omega
    subst hz
    have hI : p.hasBit p.ILLEGAL i = false := by
      have := hmax (by omega)
      simpa using this
    obtain ⟨len2, g0, gle, gcall, gbits, gmax⟩ :=
      decorate_preedit_char_spec text p i p.charTypeSize p.USER_CHOICE 0x35556B (le_of_lt hi)
    by_cases gpos : 0 < len2
    · refine ⟨[IBusAttribute.mk IBusAttrType.IBUS_ATTR_TYPE_FOREGROUND userChoiceColor i
          (i + len2)], i + len2, ?_, by omega, gle, by simp, ?_⟩
      · unfold decorate_preedit_string.body
        rw [hcall]
        simp only [lt_irrefl, gt_iff_lt, if_false]
        rw [gcall]
        simp only [gpos, gt_iff_lt, if_true]
        rfl
      · intro rest hr
        exact Runs.user (by omega) gle hI gbits gmax hr
    · have gz : len2 = 0 := by omega
      subst gz
      have hU : p.hasBit p.USER_CHOICE i = false := by
        have := gmax (by omega)
        simpa using this
      refine ⟨[], i + 1, ?_, by omega, by omega, by simp, ?_⟩
      · unfold decorate_preedit_string.body
        rw [hcall]
        simp only [lt_irrefl, gt_iff_lt, if_false]
        rw [gcall]
        simp only [lt_irrefl, gt_iff_lt, if_false, List.append_nil]
      · intro rest hr
        exact Runs.skip hi hI hU hr

/-- The loop of `decorate_preedit_string` finishes within a budget of
`size - i` iterations, and the spans it appends are related to `i` by `Runs`. -/
theorem loop_spec (p : IPreeditString) :
    ∀ (n : Nat) (text : IBusText) (i : Int), (p.charTypeSize - i).toNat ≤ n →
      ∃ spans, decorate_preedit_string.loop p p.charTypeSize n text i = some (text ++ spans) ∧
        Runs p i spans := by
  intro n
  induction n with
  | zero =>
    intro text i h
    have hi : ¬ i < p.charTypeSize := by omega
    refine ⟨[], ?_, Runs.done (by omega)⟩
    rw [decorate_preedit_string.loop, if_neg hi, List.append_nil]
  | succ n ih =>
    intro text i h
    by_cases hi : i < p.charTypeSize
    · obtain ⟨spans, i1, hb, h1, h2, _, hr⟩ := body_spec p text i hi
      obtain ⟨rest, hl, hrest⟩ := ih (text ++ spans) i1 (by omega)
      refine ⟨spans ++ rest, ?_, hr rest hrest⟩
      rw [decorate_preedit_string.loop, if_pos hi, hb]
      simp only []
      rw [hl, List.append_assoc]
    · refine ⟨[], ?_, Runs.done (by omega)⟩
      rw [decorate_preedit_string.loop, if_neg hi, List.append_nil]

/-- Function `decorate_preedit_string` returns, and the spans it appends are
those of a scan from offset `0`. -/
theorem decorate_preedit_string_spec (text : IBusText) (p : IPreeditString) :
    ∃ spans, decorate_preedit_string text p = some (text ++ spans) ∧ Runs p 0 spans := by
  unfold decorate_preedit_string
  exact loop_spec p p.charTypeSize.toNat text 0 (by omega)

/-- Every span of a scan from `i` is non-empty and lies between `i` and the
size of the classification stream. -/
theorem Runs.bounds {p : IPreeditString} {i : Int} {spans : List IBusAttribute}
    (h : Runs p i spans) :
    ∀ s ∈ spans, i ≤ s.start_index ∧ s.start_index < s.end_index ∧
      s.end_index ≤ p.charTypeSize := by
  induction h with
  | done _ =>
    intro s hs
    simp at hs
  | skip _ _ _ _ ih =>
    intro s hs
    have := ih s hs
    omega
  | illegal h1 h2 _ _ _ ih =>
    intro s hs
    rcases List.mem_cons.mp hs with rfl | hs
    · exact ⟨le_refl _, h1, h2⟩
    · have := ih s hs
      omega
  | user h1 h2 _ _ _ _ ih =>
    intro s hs
    rcases List.mem_cons.mp hs with rfl | hs
    · exact ⟨le_refl _, h1, h2⟩
    · have := ih s hs
      omega

/-- In emission order every span begins at or after the end of every earlier
span. -/
theorem Runs.ordered {p : IPreeditString} {i : Int} {spans : List IBusAttribute}
    (h : Runs p i spans) :
    spans.Pairwise (fun a b => a.end_index ≤ b.start_index) := by
  induction h with
  | done _ => exact List.Pairwise.nil
  | skip _ _ _ _ ih => exact ih
  | illegal _ _ _ _ hr ih =>
    refine List.Pairwise.cons ?_ ih
    intro b hb
    exact (hr.bounds b hb).1
  | user _ _ _ _ _ hr ih =>
    refine List.Pairwise.cons ?_ ih
    intro b hb
    exact (hr.bounds b hb).1

/-- Every span is a foreground attribute in one of the two colours; all
offsets of an `ILLEGAL`-coloured span have the `ILLEGAL` bit; all offsets of a
`USER_CHOICE`-coloured span have the `USER_CHOICE` bit and its first offset
does not have the `ILLEGAL` bit. -/
theorem Runs.colours {p : IPreeditString} {i : Int} {spans : List IBusAttribute}
    (h : Runs p i spans) :
    ∀ s ∈ spans, s.type = IBusAttrType.IBUS_ATTR_TYPE_FOREGROUND ∧
      ((s.value = illegalColor ∧ ∀ j, s.covers j → p.hasBit p.ILLEGAL j = true) ∨
       (s.value = userChoiceColor ∧ p.hasBit p.ILLEGAL s.start_index = false ∧
          ∀ j, s.covers j → p.hasBit p.USER_CHOICE j = true)) := by
  induction h with
  | done _ =>
    intro s hs
    simp at hs
  | skip _ _ _ _ ih => exact ih
  | illegal _ _ h3 _ _ ih =>
    intro s hs
    rcases List.mem_cons.mp hs with rfl | hs
    · exact ⟨rfl, Or.inl ⟨rfl, fun j hj => h3 j hj.1 hj.2⟩⟩
    · exact ih s hs
  | user _ _ h3 h4 _ _ ih =>
    intro s hs
    rcases List.mem_cons.mp hs with rfl | hs
    · exact ⟨rfl, Or.inr ⟨rfl, h3, fun j hj => h4 j hj.1 hj.2⟩⟩
    · exact ih s hs

/-- The spans of a scan from `i` cover exactly the offsets from `i` on whose
type has the `ILLEGAL` or the `USER_CHOICE` bit. -/
theorem Runs.coverage {p : IPreeditString} {i : Int} {spans : List IBusAttribute}
    (h : Runs p i spans) :
    ∀ j, i ≤ j → j < p.charTypeSize →
      ((∃ s ∈ spans, s.covers j) ↔
        (p.hasBit p.ILLEGAL j = true ∨ p.hasBit p.USER_CHOICE j = true)) := by
  induction h with
  | done h0 =>
    intro j h1 h2
    omega
  | @skip i spans h0 hI hU hr ih =>
    intro j h1 h2
    by_cases hji : j = i
    · subst hji
      constructor
      · rintro ⟨s, hs, hc⟩
        have := (hr.bounds s hs).1
        have := hc.1
        omega
      · rintro (hh | hh)
        · rw [hI] at hh
          exact absurd hh (by decide)
        · rw [hU] at hh
          exact absurd hh (by decide)
    · exact ih j (by omega) h2
  | @illegal i e spans h0 h1 h3 _ hr ih =>
    intro j hj1 hj2
    by_cases hje : j < e
    · constructor
      · intro _
        exact Or.inl (h3 j hj1 hje)
      · intro _
        exact ⟨_, List.mem_cons_self _ _, ⟨hj1, hje⟩⟩
    · rw [← ih j (by omega) hj2]
      constructor
      · rintro ⟨s, hs, hc⟩
        rcases List.mem_cons.mp hs with rfl | hs
        · exact absurd hc.2 hje
        · exact ⟨s, hs, hc⟩
      · rintro ⟨s, hs, hc⟩
        exact ⟨s, List.mem_cons_of_mem _ hs, hc⟩
  | @user i e spans h0 h1 _ h3 _ hr ih =>
    intro j hj1 hj2
    by_cases hje : j < e
    · constructor
      · intro _
        exact Or.inr (h3 j hj1 hje)
      · intro _
        exact ⟨_, List.mem_cons_self _ _, ⟨hj1, hje⟩⟩
    · rw [← ih j (by omega) hj2]
      constructor
      · rintro ⟨s, hs, hc⟩
        rcases List.mem_cons.mp hs with rfl | hs
        · exact absurd hc.2 hje
        · exact ⟨s, hs, hc⟩
      · rintro ⟨s, hs, hc⟩
        exact ⟨s, List.mem_cons_of_mem _ hs, hc⟩

/-- The two span colours are different. -/
theorem illegalColor_ne_userChoiceColor : illegalColor ≠ userChoiceColor := by
  decide

/-- A span emitted right after a run of some colour, and starting where that
run ends, has the other colour. -/
theorem Runs.head_colour {p : IPreeditString} {e : Int} {spans : List IBusAttribute}
    (hr : Runs p e spans) (mask colour : Nat)
    (hmask : (colour = illegalColor ∧ mask = p.ILLEGAL) ∨
             (colour = userChoiceColor ∧ mask = p.USER_CHOICE))
    (hmax : e < p.charTypeSize → p.hasBit mask e = false) :
    ∀ b ∈ spans.head?, e = b.start_index → colour ≠ b.value := by
  intro b hb hstart hcol
  have hmem : b ∈ spans := List.mem_of_mem_head? hb
  have hbnd := hr.bounds b hmem
  have hcov : b.covers e := ⟨by omega, by omega⟩
  have hfalse := hmax (by omega)
  rcases (hr.colours b hmem).2 with ⟨hv, hbits⟩ | ⟨hv, _, hbits⟩
  · rcases hmask with ⟨hc, hm⟩ | ⟨hc, hm⟩
    · have := hbits e hcov
      rw [hm] at hfalse
      rw [hfalse] at this
      exact absurd this (by decide)
    · exact illegalColor_ne_userChoiceColor (by rw [← hv, ← hcol, hc])
  · rcases hmask with ⟨hc, hm⟩ | ⟨hc, hm⟩
    · exact illegalColor_ne_userChoiceColor (by rw [← hv, ← hcol, hc])
    · have := hbits e hcov
      rw [hm] at hfalse
      rw [hfalse] at this
      exact absurd this (by decide)

/-- Two consecutive spans that touch (the later one starts where the earlier
one ends) have different colours. -/
theorem Runs.touching {p : IPreeditString} {i : Int} {spans : List IBusAttribute}
    (h : Runs p i spans) :
    spans.Chain' (fun a b => a.end_index = b.start_index → a.value ≠ b.value) := by
  induction h with
  | done _ => exact List.chain'_nil
  | skip _ _ _ _ ih => exact ih
  | illegal _ _ _ h4 hr ih =>
    refine List.Chain'.cons' ih ?_
    intro b hb
    exact hr.head_colour p.ILLEGAL illegalColor (Or.inl ⟨rfl, rfl⟩) h4 b hb
  | user _ _ _ _ h4 hr ih =>
    refine List.Chain'.cons' ih ?_
    intro b hb
    exact hr.head_colour p.USER_CHOICE userChoiceColor (Or.inr ⟨rfl, rfl⟩) h4 b hb

/-- The first span of a tiling starts at the tiling's origin. -/
theorem tiles_head {L cur : Int} {spans : List IBusAttribute} (h : tiles L cur spans = true) :
    ∀ b ∈ spans.head?, cur = b.start_index := by
  intro b hb
  cases spans with
  | nil => simp at hb
  | cons a rest =>
    simp only [List.head?_cons, Option.mem_def, Option.some.injEq] at hb
    subst hb
    simp only [tiles, Bool.and_eq_true, decide_eq_true_eq] at h
    exact h.1.1.1.symm

/-- When every offset from `i` on has the `ILLEGAL` or the `USER_CHOICE` bit,
the spans of a scan from `i` tile `[i, size)` and consecutive spans have
different colours. -/
theorem Runs.tiles {p : IPreeditString} {i : Int} {spans : List IBusAttribute}
    (h : Runs p i spans)
    (hall : ∀ j, i ≤ j → j < p.charTypeSize →
      p.hasBit p.ILLEGAL j = true ∨ p.hasBit p.USER_CHOICE j = true) :
    tiles p.charTypeSize i spans = true ∧ spans.Chain' (fun a b => a.value ≠ b.value) := by
  induction h with
  | done h0 =>
    refine ⟨?_, List.chain'_nil⟩
    simp only [SunPinyin.tiles, decide_eq_true_eq]
    exact h0
  | skip h0 hI hU _ _ =>
    rcases hall _ (le_refl _) h0 with hh | hh
    · rw [hI] at hh
      exact absurd hh (by decide)
    · rw [hU] at hh
      exact absurd hh (by decide)
  | illegal h1 h2 _ h4 hr ih =>
    obtain ⟨ht, hc⟩ := ih (fun j hj1 hj2 => hall j (by omega) hj2)
    refine ⟨?_, List.Chain'.cons' hc ?_⟩
    · simp only [SunPinyin.tiles, Bool.and_eq_true, decide_eq_true_eq]
      exact ⟨⟨⟨trivial, h1⟩, h2⟩, ht⟩
    · intro b hb
      exact hr.head_colour p.ILLEGAL illegalColor (Or.inl ⟨rfl, rfl⟩) h4 b hb
        (tiles_head ht b hb)
  | user h1 h2 _ _ h4 hr ih =>
    obtain ⟨ht, hc⟩ := ih (fun j hj1 hj2 => hall j (by omega) hj2)
    refine ⟨?_, List.Chain'.cons' hc ?_⟩
    · simp only [SunPinyin.tiles, Bool.and_eq_true, decide_eq_true_eq]
      exact ⟨⟨⟨trivial, h1⟩, h2⟩, ht⟩
    · intro b hb
      exact hr.head_colour p.USER_CHOICE userChoiceColor (Or.inr ⟨rfl, rfl⟩) h4 b hb
        (tiles_head ht b hb)

/-- An offset with both bits whose predecessor (if any) lacks the
`USER_CHOICE` bit is inside no `USER_CHOICE`-coloured span of a scan from `0`. -/
theorem Runs.not_user {p : IPreeditString} {spans : List IBusAttribute} (h : Runs p 0 spans)
    (j : Int) (hI : p.hasBit p.ILLEGAL j = true)
    (hprev : j = 0 ∨ p.hasBit p.USER_CHOICE (j - 1) = false) :
    ∀ s ∈ spans, s.value = userChoiceColor → ¬ s.covers j := by
  intro s hs hv hc
  have hb := h.bounds s hs
  rcases (h.colours s hs).2 with ⟨hv2, _⟩ | ⟨_, hstart, hbits⟩
  · exact illegalColor_ne_userChoiceColor (by rw [← hv2, hv])
  · have hne : s.start_index ≠ j := by
      intro heq
      rw [heq, hI] at hstart
      exact absurd hstart (by decide)
    have hlt : s.start_index < j := lt_of_le_of_ne hc.1 hne
    rcases hprev with h0 | hp
    · omega
    · have := hbits (j - 1) ⟨by omega, by have := hc.2; omega⟩
      rw [hp] at this
      exact absurd this (by decide)

/-- C4 as stated fails: on the stream `[ILLEGAL, NORMAL, ILLEGAL]` the two
emitted spans leave offset 1 uncovered, so they do not tile `[0, 3)`, and the
two adjacent spans share the `ILLEGAL` classification. -/
theorem decorate_partition_counterexample :
    decorate_preedit_string [] (preeditOfList 2 1 [2, 0, 2]) =
      some [IBusAttribute.mk IBusAttrType.IBUS_ATTR_TYPE_FOREGROUND illegalColor 0 1,
            IBusAttribute.mk IBusAttrType.IBUS_ATTR_TYPE_FOREGROUND illegalColor 2 3] ∧
    tiles 3 0 [IBusAttribute.mk IBusAttrType.IBUS_ATTR_TYPE_FOREGROUND illegalColor 0 1,
               IBusAttribute.mk IBusAttrType.IBUS_ATTR_TYPE_FOREGROUND illegalColor 2 3] = false ∧
    ¬ List.Chain' (fun a b => a.value ≠ b.value)
        [IBusAttribute.mk IBusAttrType.IBUS_ATTR_TYPE_FOREGROUND illegalColor 0 1,
         IBusAttribute.mk IBusAttrType.IBUS_ATTR_TYPE_FOREGROUND illegalColor 2 3] := by
  refine ⟨by decide, by decide, ?_⟩
  intro h
  rw [List.chain'_pair] at h
  exact h rfl

/-- C4, amended: the spans appended by `decorate_preedit_string` are, in
emission order, non-empty, inside `[0, L]`, increasing and non-overlapping
(each begins at or after the end of every earlier one); two consecutive spans
that touch never share a colour; the spans cover exactly the offsets having the
`ILLEGAL` or the `USER_CHOICE` bit; and when every offset of `[0, L)` has one of
the two bits they tile `[0, L)` exactly (first starts at 0, each starts where
the previous ends, last ends at `L`) with no two adjacent spans sharing a
colour. -/
theorem decorate_preedit_string_spans (text : IBusText) (p : IPreeditString) :
    ∃ spans, decorate_preedit_string text p = some (text ++ spans) ∧
      (∀ s ∈ spans, 0 ≤ s.start_index ∧ s.start_index < s.end_index ∧
        s.end_index ≤ p.charTypeSize) ∧
      spans.Pairwise (fun a b => a.end_index ≤ b.start_index) ∧
      spans.Chain' (fun a b => a.end_index = b.start_index → a.value ≠ b.value) ∧
      (∀ j, 0 ≤ j → j < p.charTypeSize →
        ((∃ s ∈ spans, s.covers j) ↔
          (p.hasBit p.ILLEGAL j = true ∨ p.hasBit p.USER_CHOICE j = true))) ∧
      ((∀ j, 0 ≤ j → j < p.charTypeSize →
          p.hasBit p.ILLEGAL j = true ∨ p.hasBit p.USER_CHOICE j = true) →
        tiles p.charTypeSize 0 spans = true ∧
        spans.Chain' (fun a b => a.value ≠ b.value)) := by
  obtain ⟨spans, hd, hr⟩ := decorate_preedit_string_spec text p
  exact ⟨spans, hd, hr.bounds, hr.ordered, hr.touching, hr.coverage, hr.tiles⟩

/-- C4 amended, evaluated on the stream `[ILLEGAL, USER_CHOICE,
ILLEGAL|USER_CHOICE]`, all of whose offsets carry one of the two bits: the
spans tile `[0, 3)` and adjacent spans differ in colour. -/
theorem decorate_preedit_string_spans_witness :
    ∃ spans, decorate_preedit_string [] (preeditOfList 2 1 [2, 1, 3]) = some ([] ++ spans) ∧
      tiles 3 0 spans = true ∧ spans.Chain' (fun a b => a.value ≠ b.value) := by
  obtain ⟨spans, hd, _, _, _, _, ht⟩ :=
    decorate_preedit_string_spans [] (preeditOfList 2 1 [2, 1, 3])
  refine ⟨spans, hd, ht ?_⟩
  intro j h0 h1
  have h2 : j < 3 := h1
  interval_cases j <;> decide

/-- C5 as stated fails: on the stream `[USER_CHOICE, ILLEGAL|USER_CHOICE]`
offset 1 has both bits, yet the only emitted span is the `USER_CHOICE`-coloured
span `[0, 2)`, which contains it. -/
theorem decorate_priority_counterexample :
    (preeditOfList 2 1 [1, 3]).hasBit 2 1 = true ∧
    (preeditOfList 2 1 [1, 3]).hasBit 1 1 = true ∧
    decorate_preedit_string [] (preeditOfList 2 1 [1, 3]) =
      some [IBusAttribute.mk IBusAttrType.IBUS_ATTR_TYPE_FOREGROUND userChoiceColor 0 2] ∧
    (IBusAttribute.mk IBusAttrType.IBUS_ATTR_TYPE_FOREGROUND userChoiceColor 0 2).covers 1 := by
  refine ⟨by decide, by decide, by decide, by decide⟩

/-- C5, amended: an offset whose type has both the `ILLEGAL` and the
`USER_CHOICE` bit lies inside some span; a `USER_CHOICE`-coloured span that
contains it starts strictly before it, at an offset without the `ILLEGAL` bit;
and when the offset is 0 or its preceding offset lacks the `USER_CHOICE` bit,
it lies inside a span of the `ILLEGAL` colour and inside no span of the
`USER_CHOICE` colour. -/
theorem decorate_preedit_string_priority (text : IBusText) (p : IPreeditString) (j : Int)
    (h0 : 0 ≤ j) (h1 : j < p.charTypeSize)
    (hI : p.hasBit p.ILLEGAL j = true) (_hU : p.hasBit p.USER_CHOICE j = true) :
    ∃ spans, decorate_preedit_string text p = some (text ++ spans) ∧
      (∃ s ∈ spans, s.covers j) ∧
      (∀ s ∈ spans, s.value = userChoiceColor → s.covers j →
        s.start_index < j ∧ p.hasBit p.ILLEGAL s.start_index = false) ∧
      ((j = 0 ∨ p.hasBit p.USER_CHOICE (j - 1) = false) →
        (∃ s ∈ spans, s.value = illegalColor ∧ s.covers j) ∧
        (∀ s ∈ spans, s.value = userChoiceColor → ¬ s.covers j)) := by
  obtain ⟨spans, hd, hr⟩ := decorate_preedit_string_spec text p
  obtain ⟨s, hs, hc⟩ := (hr.coverage j h0 h1).mpr (Or.inl hI)
  refine ⟨spans, hd, ⟨s, hs, hc⟩, ?_, ?_⟩
  · intro t ht hv hct
    rcases (hr.colours t ht).2 with ⟨hv2, _⟩ | ⟨_, hstart, _⟩
    · exact absurd (by rw [← hv2, hv]) illegalColor_ne_userChoiceColor
    · refine ⟨lt_of_le_of_ne hct.1 ?_, hstart⟩
      intro heq
      rw [heq, hI] at hstart
      exact absurd hstart (by decide)
  · intro hprev
    have hnot := hr.not_user j hI hprev
    refine ⟨⟨s, hs, ?_, hc⟩, hnot⟩
    rcases (hr.colours s hs).2 with ⟨hv, _⟩ | ⟨hv, _, _⟩
    · exact hv
    · exact absurd hc (hnot s hs hv)

/-- C5 amended, evaluated on the stream `[NORMAL, ILLEGAL|USER_CHOICE,
USER_CHOICE]` at offset 1. -/
theorem decorate_preedit_string_priority_witness :
    ∃ spans, decorate_preedit_string [] (preeditOfList 2 1 [0, 3, 1]) = some ([] ++ spans) ∧
      (∃ s ∈ spans, s.value = illegalColor ∧ s.covers 1) ∧
      (∀ s ∈ spans, s.value = userChoiceColor → ¬ s.covers 1) := by
  obtain ⟨spans, hd, _, _, hp⟩ :=
    decorate_preedit_string_priority [] (preeditOfList 2 1 [0, 3, 1]) 1 (by decide) (by decide)
      (by decide) (by decide)
  exact ⟨spans, hd, hp (Or.inr (by decide))⟩

/-- C6: `decorate_preedit_string` returns within its budget of `L`
iterations; every span it appends is non-empty and inside `[0, L]`; each span
begins at or after the end of every earlier span, so no offset is covered by
two spans; and every iteration of the loop, entered at an index `i < L`,
returns and leaves the index strictly larger and at most `L`. -/
theorem decorate_preedit_string_progress (text : IBusText) (p : IPreeditString) :
    (∃ spans, decorate_preedit_string text p = some (text ++ spans) ∧
      (∀ s ∈ spans, 0 ≤ s.start_index ∧ s.start_index < s.end_index ∧
        s.end_index ≤ p.charTypeSize) ∧
      spans.Pairwise (fun a b => a.end_index ≤ b.start_index) ∧
      spans.Pairwise (fun a b => ∀ j, ¬ (a.covers j ∧ b.covers j))) ∧
    (∀ (text1 : IBusText) (i : Int), i < p.charTypeSize →
      ∃ text2 i1, decorate_preedit_string.body p p.charTypeSize text1 i = some (text2, i1) ∧
        i < i1 ∧ i1 ≤ p.charTypeSize) := by
  constructor
  · obtain ⟨spans, hd, hr⟩ := decorate_preedit_string_spec text p
    refine ⟨spans, hd, hr.bounds, hr.ordered, ?_⟩
    refine hr.ordered.imp ?_
    intro a b hab j hj
    have h1 := hj.1.2
    have h2 := hj.2.1
    omega
  · intro text1 i hi
    obtain ⟨spans, i1, hb, h1, h2, _, _⟩ := body_spec p text1 i hi
    exact ⟨text1 ++ spans, i1, hb, h1, h2⟩

/-- C6, evaluated on the stream `[USER_CHOICE, USER_CHOICE, NORMAL]`: the
first iteration, entered at index 0, returns and leaves the index strictly
larger and at most 3. -/
theorem decorate_preedit_string_progress_witness :
    ∃ text2 i1,
      decorate_preedit_string.body (preeditOfList 2 1 [1, 1, 0])
        (preeditOfList 2 1 [1, 1, 0]).charTypeSize [] 0 = some (text2, i1) ∧
      0 < i1 ∧ i1 ≤ (preeditOfList 2 1 [1, 1, 0]).charTypeSize :=
  (decorate_preedit_string_progress [] (preeditOfList 2 1 [1, 1, 0])).2 [] 0 (by decide)

/-- C10: an offset of `[0, L)` lies inside some span appended by
`decorate_preedit_string` if and only if its type has the `ILLEGAL` or the
`USER_CHOICE` bit; every offset inside a span of the `ILLEGAL` colour has the
`ILLEGAL` bit, every offset inside a span of the `USER_CHOICE` colour has the
`USER_CHOICE` bit, every span has one of the two colours, and an offset with
neither bit is inside no span. -/
theorem decorate_preedit_string_coverage (text : IBusText) (p : IPreeditString) :
    ∃ spans, decorate_preedit_string text p = some (text ++ spans) ∧
      (∀ j, 0 ≤ j → j < p.charTypeSize →
        ((∃ s ∈ spans, s.covers j) ↔
          (p.hasBit p.ILLEGAL j = true ∨ p.hasBit p.USER_CHOICE j = true))) ∧
      (∀ s ∈ spans, s.value = illegalColor → ∀ j, s.covers j → p.hasBit p.ILLEGAL j = true) ∧
      (∀ s ∈ spans, s.value = userChoiceColor →
        ∀ j, s.covers j → p.hasBit p.USER_CHOICE j = true) ∧
      (∀ s ∈ spans, s.value = illegalColor ∨ s.value = userChoiceColor) ∧
      (∀ j, p.hasBit p.ILLEGAL j = false → p.hasBit p.USER_CHOICE j = false →
        ∀ s ∈ spans, ¬ s.covers j) := by
  obtain ⟨spans, hd, hr⟩ := decorate_preedit_string_spec text p
  refine ⟨spans, hd, hr.coverage, ?_, ?_, ?_, ?_⟩
  · intro s hs hv
    rcases (hr.colours s hs).2 with ⟨_, hbits⟩ | ⟨hv2, _, _⟩
    · exact hbits
    · exact absurd (by rw [← hv, hv2]) illegalColor_ne_userChoiceColor
  · intro s hs hv
    rcases (hr.colours s hs).2 with ⟨hv2, _⟩ | ⟨_, _, hbits⟩
    · exact absurd (by rw [← hv2, hv]) illegalColor_ne_userChoiceColor
    · exact hbits
  · intro s hs
    rcases (hr.colours s hs).2 with ⟨hv, _⟩ | ⟨hv, _, _⟩
    · exact Or.inl hv
    · exact Or.inr hv
  · intro j hI hU s hs hc
    rcases (hr.colours s hs).2 with ⟨_, hbits⟩ | ⟨_, _, hbits⟩
    · have := hbits j hc
      rw [hI] at this
      exact absurd this (by decide)
    · have := hbits j hc
      rw [hU] at this
      exact absurd this (by decide)

/-- C10, evaluated on the stream `[ILLEGAL, NORMAL, USER_CHOICE]`: offset 0
is inside a span and offset 1 is inside none. -/
theorem decorate_preedit_string_coverage_witness :
    ∃ spans, decorate_preedit_string [] (preeditOfList 2 1 [2, 0, 1]) = some ([] ++ spans) ∧
      (∃ s ∈ spans, s.covers 0) ∧ (∀ s ∈ spans, ¬ s.covers 1) := by
  obtain ⟨spans, hd, hcov, _, _, _, hnone⟩ :=
    decorate_preedit_string_coverage [] (preeditOfList 2 1 [2, 0, 1])
  exact ⟨spans, hd, (hcov 0 (by decide) (by decide)).mpr (Or.inl (by decide)),
    hnone 1 (by decide) (by decide)⟩

/-! ## Theorems: property activation -/

/-- C7: `property_activate` pushes at most one status flag to the engine
session.  The flag is chosen by the first of the mode, letter-width and
punctuation-width properties whose `toggle` accepts the name: `STATUS_ID_CN`,
`STATUS_ID_FULLSYMBOL`, `STATUS_ID_FULLPUNC` respectively, with the state of
that property after its toggle.  The setup launcher is invoked if and only if
none of the three accepts the name, and then no status flag is pushed. -/
theorem property_activate_dispatch {P : Type} (ops : SunPinyinProperty P)
    (m_status_prop m_letter_prop m_punct_prop : P) (property : String) (state : Nat) :
    (property_activate ops m_status_prop m_letter_prop m_punct_prop property
        state).sessionCalls.length ≤ 1 ∧
    ((ops.toggle m_status_prop property).1 = true →
      (property_activate ops m_status_prop m_letter_prop m_punct_prop property
          state).sessionCalls =
        [SessionCall.setStatusAttrValue StatusId.STATUS_ID_CN
          (ops.state (ops.toggle m_status_prop property).2)]) ∧
    ((ops.toggle m_status_prop property).1 = false →
      (ops.toggle m_letter_prop property).1 = true →
      (property_activate ops m_status_prop m_letter_prop m_punct_prop property
          state).sessionCalls =
        [SessionCall.setStatusAttrValue StatusId.STATUS_ID_FULLSYMBOL
          (ops.state (ops.toggle m_letter_prop property).2)]) ∧
    ((ops.toggle m_status_prop property).1 = false →
      (ops.toggle m_letter_prop property).1 = false →
      (ops.toggle m_punct_prop property).1 = true →
      (property_activate ops m_status_prop m_letter_prop m_punct_prop property
          state).sessionCalls =
        [SessionCall.setStatusAttrValue StatusId.STATUS_ID_FULLPUNC
          (ops.state (ops.toggle m_punct_prop property).2)]) ∧
    ((property_activate ops m_status_prop m_letter_prop m_punct_prop property
          state).launches ≠ [] ↔
      ((ops.toggle m_status_prop property).1 = false ∧
       (ops.toggle m_letter_prop property).1 = false ∧
       (ops.toggle m_punct_prop property).1 = false)) ∧
    (((ops.toggle m_status_prop property).1 = false ∧
       (ops.toggle m_letter_prop property).1 = false ∧
       (ops.toggle m_punct_prop property).1 = false) →
      (property_activate ops m_status_prop m_letter_prop m_punct_prop property
          state).launches = [property] ∧
      (property_activate ops m_status_prop m_letter_prop m_punct_prop property
          state).sessionCalls = []) := by
  cases h1 : (ops.toggle m_status_prop property).1 <;>
    cases h2 : (ops.toggle m_letter_prop property).1 <;>
    cases h3 : (ops.toggle m_punct_prop property).1 <;>
    simp [property_activate, h1, h2, h3]

/-- C7, evaluated with the three toggle groups named `status`, `letter` and
`punct`: activating `letter` pushes only `STATUS_ID_FULLSYMBOL` with the flipped
letter state, and activating `setup` pushes nothing and invokes the launcher. -/
theorem property_activate_dispatch_witness :
    (property_activate namedProperty ("status", true) ("letter", false) ("punct", false)
        "letter" 0).sessionCalls =
      [SessionCall.setStatusAttrValue StatusId.STATUS_ID_FULLSYMBOL true] ∧
    ((property_activate namedProperty ("status", true) ("letter", false) ("punct", false)
        "setup" 0).launches = ["setup"] ∧
     (property_activate namedProperty ("status", true) ("letter", false) ("punct", false)
        "setup" 0).sessionCalls = []) :=
  ⟨(property_activate_dispatch namedProperty ("status", true) ("letter", false)
      ("punct", false) "letter" 0).2.2.1 (by decide) (by decide),
   (property_activate_dispatch namedProperty ("status", true) ("letter", false)
      ("punct", false) "setup" 0).2.2.2.2.2 (by decide)⟩

/-! ## Theorems: hotkey profile -/

/-- The page-key updates leave the mode-switch keys alone, and the mode-key
updates leave the page keys alone. -/
theorem update_hotkey_profile_page_keys (K : KeyConstants) (c : SunPinyinConfig)
    (h : CHotkeyProfile) :
    (update_hotkey_profile K c h).m_pageUpKeys =
      (update_page_key_comma c (update_page_key_minus c h)).m_pageUpKeys ∧
    (update_hotkey_profile K c h).m_pageDownKeys =
      (update_page_key_comma c (update_page_key_minus c h)).m_pageDownKeys := by
  unfold update_hotkey_profile update_mode_key_control update_mode_key_shift
  cases c.get ConfigKey.CONFIG_KEYBOARD_MODE_SWITCH_SHIFT true <;>
    cases c.get ConfigKey.CONFIG_KEYBOARD_MODE_SWITCH_CONTROL false <;>
    simp [CHotkeyProfile.setModeSwitchKey]

/-- C8: starting from the empty profile, after `update_hotkey_profile` the
page-up keys contain `-` and the page-down keys contain `=` if and only if the
page-key-minus flag is enabled, and the page-up keys contain `,` and the
page-down keys contain `.` if and only if the page-key-comma flag is enabled;
with both flags enabled all four bindings are present, and with both disabled
no page key is bound. -/
theorem update_hotkey_profile_page_bindings (K : KeyConstants) (c : SunPinyinConfig) :
    (IM_VK_MINUS = Char.toNat '-' ∧ IM_VK_EQUALS = Char.toNat '=' ∧
      IM_VK_COMMA = Char.toNat ',' ∧ IM_VK_PERIOD = Char.toNat '.') ∧
    ((CKeyEvent.mk IM_VK_MINUS 0 0 ∈
          (update_hotkey_profile K c CHotkeyProfile.empty).m_pageUpKeys ∧
        CKeyEvent.mk IM_VK_EQUALS 0 0 ∈
          (update_hotkey_profile K c CHotkeyProfile.empty).m_pageDownKeys) ↔
      c.get ConfigKey.CONFIG_KEYBOARD_PAGE_MINUS false = true) ∧
    ((CKeyEvent.mk IM_VK_COMMA 0 0 ∈
          (update_hotkey_profile K c CHotkeyProfile.empty).m_pageUpKeys ∧
        CKeyEvent.mk IM_VK_PERIOD 0 0 ∈
          (update_hotkey_profile K c CHotkeyProfile.empty).m_pageDownKeys) ↔
      c.get ConfigKey.CONFIG_KEYBOARD_PAGE_COMMA false = true) ∧
    (c.get ConfigKey.CONFIG_KEYBOARD_PAGE_MINUS false = true →
      c.get ConfigKey.CONFIG_KEYBOARD_PAGE_COMMA false = true →
      (update_hotkey_profile K c CHotkeyProfile.empty).m_pageUpKeys =
        [CKeyEvent.mk IM_VK_MINUS 0 0, CKeyEvent.mk IM_VK_COMMA 0 0] ∧
      (update_hotkey_profile K c CHotkeyProfile.empty).m_pageDownKeys =
        [CKeyEvent.mk IM_VK_EQUALS 0 0, CKeyEvent.mk IM_VK_PERIOD 0 0]) ∧
    (c.get ConfigKey.CONFIG_KEYBOARD_PAGE_MINUS false = false →
      c.get ConfigKey.CONFIG_KEYBOARD_PAGE_COMMA false = false →
      (update_hotkey_profile K c CHotkeyProfile.empty).m_pageUpKeys = [] ∧
      (update_hotkey_profile K c CHotkeyProfile.empty).m_pageDownKeys = []) := by
  refine ⟨⟨by decide, by decide, by decide, by decide⟩, ?_⟩
  rw [(update_hotkey_profile_page_keys K c CHotkeyProfile.empty).1,
    (update_hotkey_profile_page_keys K c CHotkeyProfile.empty).2]
  unfold update_page_key_comma update_page_key_minus
  cases c.get ConfigKey.CONFIG_KEYBOARD_PAGE_MINUS false <;>
    cases c.get ConfigKey.CONFIG_KEYBOARD_PAGE_COMMA false <;>
    simp [CHotkeyProfile.addPageUpKey, CHotkeyProfile.addPageDownKey, CHotkeyProfile.empty,
      IM_VK_MINUS, IM_VK_EQUALS, IM_VK_COMMA, IM_VK_PERIOD]

/-- C8, evaluated: with only the page-key-minus flag stored as enabled the
page keys are `-` and `=`; with both flags enabled all four keys are bound. -/
theorem update_hotkey_profile_page_bindings_witness :
    (CKeyEvent.mk IM_VK_MINUS 0 0 ∈
        (update_hotkey_profile x11KeyConstants
          ⟨fun key => some (decide (key = ConfigKey.CONFIG_KEYBOARD_PAGE_MINUS))⟩
          CHotkeyProfile.empty).m_pageUpKeys ∧
      CKeyEvent.mk IM_VK_EQUALS 0 0 ∈
        (update_hotkey_profile x11KeyConstants
          ⟨fun key => some (decide (key = ConfigKey.CONFIG_KEYBOARD_PAGE_MINUS))⟩
          CHotkeyProfile.empty).m_pageDownKeys) ∧
    ((update_hotkey_profile x11KeyConstants ⟨fun _ => some true⟩
        CHotkeyProfile.empty).m_pageUpKeys =
      [CKeyEvent.mk IM_VK_MINUS 0 0, CKeyEvent.mk IM_VK_COMMA 0 0] ∧
     (update_hotkey_profile x11KeyConstants ⟨fun _ => some true⟩
        CHotkeyProfile.empty).m_pageDownKeys =
      [CKeyEvent.mk IM_VK_EQUALS 0 0, CKeyEvent.mk IM_VK_PERIOD 0 0]) :=
  ⟨(update_hotkey_profile_page_bindings x11KeyConstants
      ⟨fun key => some (decide (key = ConfigKey.CONFIG_KEYBOARD_PAGE_MINUS))⟩).2.1.mpr
      (by decide),
   (update_hotkey_profile_page_bindings x11KeyConstants ⟨fun _ => some true⟩).2.2.2.1
      (by decide) (by decide)⟩

/-- With mode-switch-on-shift enabled, `update_mode_key_shift` registers the
Shift-key release event; disabled, it adds nothing. -/
theorem update_mode_key_shift_binding (K : KeyConstants) (c : SunPinyinConfig)
    (h : CHotkeyProfile) :
    (c.get ConfigKey.CONFIG_KEYBOARD_MODE_SWITCH_SHIFT true = true →
      update_mode_key_shift K c h =
        h.setModeSwitchKey (CKeyEvent.mk K.IM_VK_SHIFT 0 (K.IM_SHIFT_MASK ||| K.IM_RELEASE_MASK))) ∧
    (c.get ConfigKey.CONFIG_KEYBOARD_MODE_SWITCH_SHIFT true = false →
      update_mode_key_shift K c h = h) := by
  constructor <;> intro hc <;> simp [update_mode_key_shift, hc]

/-- C9, the code at the failing input: with only mode-switch-on-control
enabled, rebuilding the empty profile registers as the one mode-switch key an
event with the Shift key code and the Alt+release modifier mask; whenever the
Control key code differs from the Shift key code, the Control-key release event
is therefore not a mode-switch key. -/
theorem update_mode_key_control_registers_shift_alt (K : KeyConstants) :
    (update_hotkey_profile K controlOnlyConfig CHotkeyProfile.empty).m_modeSwitchKeys =
      [CKeyEvent.mk K.IM_VK_SHIFT 0 (K.IM_ALT_MASK ||| K.IM_RELEASE_MASK)] ∧
    (K.IM_VK_CONTROL ≠ K.IM_VK_SHIFT →
      CKeyEvent.mk K.IM_VK_CONTROL 0 (K.IM_CTRL_MASK ||| K.IM_RELEASE_MASK) ∉
        (update_hotkey_profile K controlOnlyConfig CHotkeyProfile.empty).m_modeSwitchKeys) := by
  have h : (update_hotkey_profile K controlOnlyConfig CHotkeyProfile.empty).m_modeSwitchKeys =
      [CKeyEvent.mk K.IM_VK_SHIFT 0 (K.IM_ALT_MASK ||| K.IM_RELEASE_MASK)] := by
    simp [update_hotkey_profile, update_mode_key_control, update_mode_key_shift,
      update_page_key_comma, update_page_key_minus, controlOnlyConfig, SunPinyinConfig.get,
      CHotkeyProfile.setModeSwitchKey, CHotkeyProfile.empty]
  refine ⟨h, ?_⟩
  intro hne hmem
  rw [h, List.mem_singleton] at hmem
  injection hmem with h1 _ _
  exact hne h1

/-- C9 at the failing input, evaluated with the X11 constants: the
Control-key release event is not registered. -/
theorem update_mode_key_control_registers_shift_alt_witness :
    CKeyEvent.mk 0xffe3 0 (4 ||| 0x40000000) ∉
      (update_hotkey_profile x11KeyConstants controlOnlyConfig
        CHotkeyProfile.empty).m_modeSwitchKeys :=
  (update_mode_key_control_registers_shift_alt x11KeyConstants).2 (by decide)

end SunPinyin
